import Mathlib

/-!
Verification development for the `botsolana` trading bot.

We shallowly embed the Rust sources:
  * `src/grpc_stream.rs` — the binary record decoder for the OpenBook
    event-queue account (`decode_last_fill`) and the book-side best-price
    decoder (`decode_best_price`);
  * `src/model.rs` — the linear signal model (`MlModel`): `train` result
    shape, `predict`, `save`, `load`;
  * `src/strategy.rs` — `Strategy::generate_signal`;
  * `src/trader.rs` — the trading loop state (`Trader`) and its per-event
    step `handle_trade` / `train_model`.

Modelling conventions:
  * Byte buffers are `List ℕ` (each entry one byte).  Rust slice indexing
    panics when out of bounds; we model every slice access through
    `sliceBytes`, which returns `Except Unit _` with `.error ()` standing
    for a panic / out-of-bounds read.  A decoder that provably never
    returns `.error ()` performs no out-of-bounds access.
  * Rust `f64` values are modelled as exact rationals `ℚ`; the claims we
    settle concern signs, structure and exact values at points where the
    floating-point computation is itself exact.  `exp`/`sigmoid` is
    modelled over `ℝ`.
  * `usize`/`u32`/`u64` arithmetic in the decoder cannot overflow 64 bits
    on real inputs (indices are sums of 32-bit values), so plain `ℕ`
    arithmetic is faithful; `a - b` only occurs guarded by `b ≠ 0` checks
    exactly as in the source.
-/

namespace BotSolana

/-! ### Binary record decoder (src/grpc_stream.rs) -/

/-- Model of Rust slice indexing `&raw[off .. off+len]`: out of bounds is a
panic, modelled as `.error ()`. -/
def sliceBytes (raw : List ℕ) (off len : ℕ) : Except Unit (List ℕ) :=
  if off + len ≤ raw.length then .ok ((raw.drop off).take len) else .error ()

/-- Model of `byteorder::LittleEndian::read_u32` on a 4-byte slice. -/
def readU32LE (bs : List ℕ) : ℕ :=
  bs.getD 0 0 + 2 ^ 8 * bs.getD 1 0 + 2 ^ 16 * bs.getD 2 0 + 2 ^ 24 * bs.getD 3 0

/-- Model of `byteorder::LittleEndian::read_u64` on an 8-byte slice. -/
def readU64LE (bs : List ℕ) : ℕ :=
  bs.getD 0 0 + 2 ^ 8 * bs.getD 1 0 + 2 ^ 16 * bs.getD 2 0 + 2 ^ 24 * bs.getD 3 0 +
    2 ^ 32 * bs.getD 4 0 + 2 ^ 40 * bs.getD 5 0 + 2 ^ 48 * bs.getD 6 0 +
    2 ^ 56 * bs.getD 7 0

/-- Constant `HEADER_LEN` from `decode_last_fill`: account flags (5) + padding + head
+ padding + count + padding + seq + padding. -/
def HEADER_LEN : ℕ := 5 + 8 + 4 + 4 + 4 + 4

/-- Constant `NODE_SIZE` from `decode_last_fill` (FillEvent size). -/
def NODE_SIZE : ℕ := 88

/-- Constant `PRICE_LOT_MULT = 0.0001` (exactly 1/10000 as a rational). -/
def PRICE_LOT_MULT : ℚ := 1 / 10000

/-- Interpretation of one 88-byte record (`node`) in `decode_last_fill`
(`src/grpc_stream.rs` lines 186–209): byte 0 carries flag bits (bit 0 =
fill event, bit 2 = bid side); `native_quantity_released` is the
little-endian u64 at offset 8, `native_quantity_paid` at offset 16;
records with zero quantity-received are rejected. -/
def decodeNode (node : List ℕ) : Except Unit (Option (ℚ × ℚ × String)) :=
  match sliceBytes node 0 1 with
  | .error e => .error e
  | .ok flagsBs =>
    let flags := flagsBs.getD 0 0
    if flags % 2 = 0 then .ok none
    else
      let side := if flags / 4 % 2 = 1 then "bid" else "ask"
      match sliceBytes node 16 8 with
      | .error e => .error e
      | .ok paidBs =>
        let qty_paid := readU64LE paidBs
        match sliceBytes node 8 8 with
        | .error e => .error e
        | .ok recvBs =>
          let qty_received := readU64LE recvBs
          if qty_received = 0 then .ok none
          else
            let price : ℚ := (qty_paid : ℚ) / (qty_received : ℚ) / 1000000
            let size : ℚ := (qty_received : ℚ) / 1000000
            .ok (some (price, size, side))

/-- Function `decode_last_fill` (`src/grpc_stream.rs` lines 161–210): locate the
most-recently-written record of the circular event queue and decode it. -/
def decode_last_fill (raw : List ℕ) : Except Unit (Option (ℚ × ℚ × String)) :=
  if raw.length < HEADER_LEN then .ok none
  else
    match sliceBytes raw 8 4 with
    | .error e => .error e
    | .ok headBs =>
      let head := readU32LE headBs
      match sliceBytes raw 16 4 with
      | .error e => .error e
      | .ok countBs =>
        let count := readU32LE countBs
        let capacity := (raw.length - HEADER_LEN) / NODE_SIZE
        if capacity = 0 ∨ count = 0 then .ok none
        else
          let last_idx := (head + count - 1) % capacity
          let node_off := HEADER_LEN + last_idx * NODE_SIZE
          if node_off + NODE_SIZE > raw.length then .ok none
          else
            match sliceBytes raw node_off NODE_SIZE with
            | .error e => .error e
            | .ok node => decodeNode node

/-- Function `decode_best_price` (`src/grpc_stream.rs` lines 212–221): read the
leading little-endian u64 price-lot value of a book-side account and scale
it; reject zero. -/
def decode_best_price (raw : List ℕ) : Except Unit (Option ℚ) :=
  if raw.length < 8 then .ok none
  else
    match sliceBytes raw 0 8 with
    | .error e => .error e
    | .ok lotsBs =>
      let price_lots := readU64LE lotsBs
      if price_lots = 0 then .ok none
      else .ok (some ((price_lots : ℚ) * PRICE_LOT_MULT))

/-- The `head` header field of the event queue: little-endian u32 at
offset 8 (`src/grpc_stream.rs` lines 170–172). -/
def eqHead (raw : List ℕ) : ℕ := readU32LE ((raw.drop 8).take 4)

/-- The `count` header field: little-endian u32 at offset 16. -/
def eqCount (raw : List ℕ) : ℕ := readU32LE ((raw.drop 16).take 4)

/-- The circular-buffer capacity computed by `decode_last_fill`. -/
def eqCapacity (raw : List ℕ) : ℕ := (raw.length - HEADER_LEN) / NODE_SIZE

/-- The index of the most-recently-written record. -/
def eqLastIdx (raw : List ℕ) : ℕ := (eqHead raw + eqCount raw - 1) % eqCapacity raw

/-- The byte offset of the most-recently-written record. -/
def eqNodeOff (raw : List ℕ) : ℕ := HEADER_LEN + eqLastIdx raw * NODE_SIZE

/-- The bytes of the most-recently-written record. -/
def eqNode (raw : List ℕ) : List ℕ := (raw.drop (eqNodeOff raw)).take NODE_SIZE

/-! ### Signal model (src/model.rs) -/

/-- Structure `MlModel` from `src/model.rs`: a parameter vector (bias first, then
per-feature weights); `f64` entries modelled as exact rationals. -/
structure MlModel where
  params : List ℚ
deriving DecidableEq

/-- Model of the bincode encoding of one `f64` entry: an exact rational is
encoded by its numerator and denominator. -/
def serQ (q : ℚ) : List ℤ := [q.num, (q.den : ℤ)]

/-- Model of `bincode::serialize` for `MlModel` (a `Vec<f64>` behind a
struct): a length prefix followed by the encoded entries.  `bincode` is an
external crate; we model it by an injective length-prefixed encoding with
the same shape (length header + fixed-size encoded elements) and the same
round-trip guarantee. -/
def serParams (ps : List ℚ) : List ℤ := (ps.length : ℤ) :: ps.flatMap serQ

/-- Decode `n` encoded rationals, rejecting malformed or trailing data. -/
def deserQs : ℕ → List ℤ → Option (List ℚ)
  | 0, [] => some []
  | 0, _ :: _ => none
  | _ + 1, [] => none
  | _ + 1, [_] => none
  | n + 1, a :: b :: rest => (deserQs n rest).map (fun qs => mkRat a b.toNat :: qs)

/-- Model of `bincode::deserialize` for `MlModel`; fails on malformed
blobs (wrong length prefix, truncated or trailing data). -/
def deserParams (bs : List ℤ) : Option (List ℚ) :=
  match bs with
  | [] => none
  | n :: rest => if n < 0 then none else deserQs n.toNat rest

/-- Outcome of `std::fs::read` on one path: the file's bytes, a
`NotFound` error, or any other I/O error. -/
inductive ReadResult where
  | found (bytes : List ℤ)
  | notFound
  | ioError
deriving DecidableEq

/-- A file system maps each path to a read outcome. -/
def FileSys : Type := String → ReadResult

/-- Errors surfaced by `MlModel::load`: a failed deserialization
(`bincode` error) or a propagated I/O error other than `NotFound`. -/
inductive ModelErr where
  | badBlob
  | io
deriving DecidableEq

/-- Function `MlModel::load` (`src/model.rs` lines 40–49): read the file; on
`NotFound` fall back to the degenerate zero model `[0,0,0]`; propagate any
other read error; deserialize the bytes otherwise. -/
def MlModel.load (path : String) (fs : FileSys) : Except ModelErr MlModel :=
  match fs path with
  | .found bytes =>
    match deserParams bytes with
    | some ps => .ok ⟨ps⟩
    | none => .error .badBlob
  | .notFound => .ok ⟨[0, 0, 0]⟩
  | .ioError => .error .io

/-- Function `MlModel::save` (`src/model.rs` lines 34–38): serialize the parameters
and write them at `path`. -/
def MlModel.save (m : MlModel) (path : String) (fs : FileSys) : FileSys :=
  fun p => if p = path then .found (serParams m.params) else fs p

/-- Function `MlModel::predict` (`src/model.rs` lines 25–32): `0.5` on an empty
parameter vector, otherwise `sigmoid(bias + dot(weights, features))`;
`iter().zip` truncates to the shorter list exactly as `List.zipWith`. -/
noncomputable def MlModel.predict (m : MlModel) (features : List ℚ) : ℝ :=
  match m.params with
  | [] => 1 / 2
  | bias :: weights =>
    let z : ℚ := bias + (List.zipWith (fun w x => w * x) weights features).sum
    1 / (1 + Real.exp (-(z : ℝ)))

/-! ### Strategy (src/strategy.rs) -/

/-- Enum `OrderSide` from `src/strategy.rs`. -/
inductive OrderSide where
  | Buy
  | Sell
deriving DecidableEq

/-- Structure `Strategy` from `src/strategy.rs`: a model plus a decision threshold. -/
structure Strategy where
  model : MlModel
  threshold : ℚ

open Classical in
/-- The probability-to-signal map inside `Strategy::generate_signal`
(`src/strategy.rs` lines 14–23): `Buy` above the threshold, `Sell` below
`1 - threshold`, `None` in the dead zone. -/
noncomputable def signalOfProb (threshold : ℚ) (prob : ℝ) : Option OrderSide :=
  if (threshold : ℝ) < prob then some .Buy
  else if prob < 1 - (threshold : ℝ) then some .Sell
  else none

/-- Function `Strategy::generate_signal`: apply the threshold rule to the model's
predicted probability. -/
noncomputable def Strategy.generate_signal (s : Strategy) (features : List ℚ) :
    Option OrderSide :=
  signalOfProb s.threshold (s.model.predict features)

/-! ### Trading loop (src/trader.rs) -/

/-- Structure `TradeMsg` from `src/data.rs`. -/
structure TradeMsg where
  price : ℚ
  size : ℚ
  side : String
  ts : ℤ
  spread : ℚ

/-- The mutable state of `Trader` (`src/trader.rs` lines 18–34) that the
trading loop touches: the strategy (with its model), the model file path
and the file system it saves to, the running P&L, the paper/live flag, the
labeled dataset, the previous features/price, the retrain checkpoint and
the trade amount. -/
structure TraderState where
  strategy : Strategy
  modelPath : String
  modelFs : FileSys
  pnl : ℚ
  paperMode : Bool
  dataset : List (List ℚ × ℚ)
  lastFeatures : Option (List ℚ)
  lastPrice : Option ℚ
  lastTrained : ℕ
  tradeAmount : ℚ

/-- The label computed in `Trader::handle_trade` (`src/trader.rs` line 85):
`1.0` if the current price strictly exceeds the previous price, else `0.0`. -/
def labelOf (prevPrice curPrice : ℚ) : ℚ := if prevPrice < curPrice then 1 else 0

/-- Function `Trader::train_model` (`src/trader.rs` lines 107–124).  The `linfa`
logistic-regression fit is an external collaborator, modelled by the
argument `trainFn` mapping the flattened feature matrix and the label
vector to either new parameters or a training error.  Returns the updated
state and `false` when an error propagated (`?`): shape mismatch in
`Array2::from_shape_vec((n,3), x)` or a failed fit. -/
def trainModel (trainFn : List ℚ → List ℤ → Except Unit (List ℚ))
    (st : TraderState) : TraderState × Bool :=
  let data := st.dataset
  if data.length < 10 then (st, true)
  else
    let n := data.length
    let x := data.flatMap Prod.fst
    if x.length = n * 3 then
      let y := data.map (fun ob => if (1 : ℚ) / 2 < ob.2 then (1 : ℤ) else 0)
      match trainFn x y with
      | .ok params =>
        let model : MlModel := ⟨params⟩
        ({ st with
            modelFs := model.save st.modelPath st.modelFs,
            strategy := ⟨model, 11 / 20⟩,
            lastTrained := n }, true)
      | .error _ => (st, false)
    else (st, false)

/-- Step 2 of `Trader::handle_trade` (`src/trader.rs` lines 84–87): when
both a previous feature vector and a previous price exist, append the
previous features with the label of the current price move. -/
def pushObs (msg : TradeMsg) (st : TraderState) : TraderState :=
  match st.lastFeatures, st.lastPrice with
  | some prevFeat, some prevPrice =>
    { st with dataset := st.dataset ++ [(prevFeat, labelOf prevPrice msg.price)] }
  | _, _ => st

/-- Step 3 of `Trader::handle_trade` (`src/trader.rs` lines 89–90): record
the current features and price as the new previous values. -/
def updateLast (msg : TradeMsg) (st : TraderState) : TraderState :=
  { st with lastFeatures := some [msg.price, msg.size, msg.spread],
            lastPrice := some msg.price }

/-- Step 4 of `Trader::handle_trade` (`src/trader.rs` lines 92–95): in
paper mode, retrain when the dataset grew by at least 500 entries since
the checkpoint. -/
def maybeTrain (trainFn : List ℚ → List ℤ → Except Unit (List ℚ))
    (st2 : TraderState) : TraderState × Bool :=
  if st2.paperMode = true ∧ 500 ≤ st2.dataset.length - st2.lastTrained then
    trainModel trainFn st2
  else (st2, true)

/-- Step 5 of `Trader::handle_trade` (`src/trader.rs` lines 97–103):
compute a signal from the current features; in live mode run
`execute_order` (external quote/swap/confirmation calls modelled by
`execOk`), which on success adjusts the P&L by `-amount*price` for `Buy`
and `+amount*price` for `Sell`; in paper mode only log. -/
noncomputable def signalStep (execOk : Bool) (msg : TradeMsg)
    (st3 : TraderState) : TraderState × Bool :=
  match st3.strategy.generate_signal [msg.price, msg.size, msg.spread] with
  | some side =>
    if st3.paperMode = false then
      if execOk then
        ({ st3 with
            pnl := st3.pnl +
              if side = .Buy then -(st3.tradeAmount * msg.price)
              else st3.tradeAmount * msg.price }, true)
      else (st3, false)
    else (st3, true)
  | none => (st3, true)

/-- Function `Trader::handle_trade` (`src/trader.rs` lines 80–105): the composition
of steps 2–5.  `trainFn` models the external fit (see `trainModel`);
`execOk` models whether the external execution calls succeed.  Returns
the updated state and `false` when an error propagated (`?`); the
mutations performed before the failing call persist, as they do on the
Rust `Trader` struct. -/
noncomputable def handleTrade (trainFn : List ℚ → List ℤ → Except Unit (List ℚ))
    (execOk : Bool) (msg : TradeMsg) (st : TraderState) : TraderState × Bool :=
  let p := maybeTrain trainFn (updateLast msg (pushObs msg st))
  if p.2 = false then (p.1, false)
  else signalStep execOk msg p.1

/-- The observation `Trader::handle_trade` appends for `msg` in state
`st`: one labeled pair when both a previous feature vector and a previous
price exist, nothing otherwise. -/
def obsOf (st : TraderState) (msg : TradeMsg) : List (List ℚ × ℚ) :=
  match st.lastFeatures, st.lastPrice with
  | some prevFeat, some prevPrice => [(prevFeat, labelOf prevPrice msg.price)]
  | _, _ => []

/-- The fields `Trader::new` (`src/trader.rs` lines 37–70) fixes at
startup: empty dataset, zero checkpoint, no previous features/price, zero
P&L. -/
def InitState (st : TraderState) : Prop :=
  st.pnl = 0 ∧ st.dataset = [] ∧ st.lastFeatures = none ∧
    st.lastPrice = none ∧ st.lastTrained = 0

/-- Trader states reachable from startup by processing trade events, for
arbitrary outcomes of the external fit and execution calls.  States after
a propagated error are included (the struct's mutations persist even
though `run` then stops). -/
inductive Reachable : TraderState → Prop where
  | init : ∀ st, InitState st → Reachable st
  | step : ∀ st trainFn execOk msg, Reachable st →
      Reachable (handleTrade trainFn execOk msg st).1

/-! ### Concrete fixtures used by witnesses -/

/-- A file system on which every read reports `NotFound`. -/
def emptyFs : FileSys := fun _ => .notFound

/-- The degenerate zero-weight strategy built at first startup. -/
def zeroStrategy : Strategy := ⟨⟨[0, 0, 0]⟩, 0.55⟩

/-- A concrete startup state in paper mode. -/
def paperInit : TraderState :=
  { strategy := zeroStrategy, modelPath := "model.bin", modelFs := emptyFs,
    pnl := 0, paperMode := true, dataset := [], lastFeatures := none,
    lastPrice := none, lastTrained := 0, tradeAmount := 1 }

/-- A concrete startup state in live mode. -/
def liveInit : TraderState :=
  { strategy := zeroStrategy, modelPath := "model.bin", modelFs := emptyFs,
    pnl := 0, paperMode := false, dataset := [], lastFeatures := none,
    lastPrice := none, lastTrained := 0, tradeAmount := 1 }

/-- A trade event at price `p` with unit size and zero spread. -/
def msgAt (p : ℚ) : TradeMsg :=
  { price := p, size := 1, side := "bid", ts := 0, spread := 0 }

/-- An external-fit stand-in that always reports a training error. -/
def failFit : List ℚ → List ℤ → Except Unit (List ℚ) := fun _ _ => .error ()

/-- A 117-byte event-queue buffer (29-byte header + one 88-byte record)
holding exactly one fill record: `head = 0`, `count = 1`, record flags =
`0x1` (fill, ask side), quantity-received = 1, quantity-paid = 2. -/
def fillBuf : List ℕ :=
  List.replicate 16 0 ++ [1, 0, 0, 0] ++ List.replicate 9 0 ++
    ([1] ++ List.replicate 7 0 ++ ([1] ++ List.replicate 7 0) ++
      ([2] ++ List.replicate 7 0) ++ List.replicate 64 0)

/-- A 117-byte all-zero event-queue buffer (`count = 0`). -/
def zeroBuf : List ℕ := List.replicate 117 0

/-! ## Theorems -/

/-! ### Decoder lemmas -/

theorem sliceBytes_ok {raw : List ℕ} {off len : ℕ} (h : off + len ≤ raw.length) :
    sliceBytes raw off len = .ok ((raw.drop off).take len) := by
  simp [sliceBytes, h]

theorem length_slice {raw : List ℕ} {off len : ℕ} (h : off + len ≤ raw.length) :
    ((raw.drop off).take len).length = len := by
  simp only [List.length_take, List.length_drop]
  omega

theorem getD_take_succ (l : List ℕ) (n : ℕ) :
    (l.take (n + 1)).getD 0 0 = l.getD 0 0 := by
  cases l <;> simp

theorem eqNodeOff_add_le (raw : List ℕ) (h : HEADER_LEN ≤ raw.length)
    (hcap : eqCapacity raw ≠ 0) : eqNodeOff raw + NODE_SIZE ≤ raw.length := by
  have hpos : 0 < eqCapacity raw := Nat.pos_of_ne_zero hcap
  have hlt : eqLastIdx raw < eqCapacity raw := Nat.mod_lt _ hpos
  have h2 : (eqLastIdx raw + 1) * NODE_SIZE ≤ eqCapacity raw * NODE_SIZE :=
    Nat.mul_le_mul_right _ hlt
  have h3 : eqCapacity raw * NODE_SIZE ≤ raw.length - HEADER_LEN :=
    Nat.div_mul_le_self _ _
  unfold eqNodeOff
  unfold NODE_SIZE HEADER_LEN at *
  omega

theorem eqNode_length (raw : List ℕ) (h : HEADER_LEN ≤ raw.length)
    (hcap : eqCapacity raw ≠ 0) : (eqNode raw).length = NODE_SIZE :=
  length_slice (eqNodeOff_add_le raw h hcap)

theorem decode_last_fill_eq (raw : List ℕ) (h : HEADER_LEN ≤ raw.length) :
    decode_last_fill raw =
      if eqCapacity raw = 0 ∨ eqCount raw = 0 then .ok none
      else decodeNode (eqNode raw) := by
  have hh : ¬ raw.length < HEADER_LEN := by omega
  have h8 : 8 + 4 ≤ raw.length := by unfold HEADER_LEN at h; omega
  have h16 : 16 + 4 ≤ raw.length := by unfold HEADER_LEN at h; omega
  unfold decode_last_fill
  rw [if_neg hh]
  simp only [sliceBytes_ok h8, sliceBytes_ok h16]
  by_cases hc : eqCapacity raw = 0 ∨ eqCount raw = 0
  · have hc' : (raw.length - HEADER_LEN) / NODE_SIZE = 0 ∨
        readU32LE ((raw.drop 16).take 4) = 0 := hc
    rw [if_pos hc', if_pos hc]
  · have hc' : ¬ ((raw.length - HEADER_LEN) / NODE_SIZE = 0 ∨
        readU32LE ((raw.drop 16).take 4) = 0) := hc
    rw [if_neg hc', if_neg hc]
    have hcap : eqCapacity raw ≠ 0 := fun hz => hc (Or.inl hz)
    have hb := eqNodeOff_add_le raw h hcap
    have hb' : ¬ (HEADER_LEN +
        (readU32LE ((raw.drop 8).take 4) + readU32LE ((raw.drop 16).take 4) - 1) %
          ((raw.length - HEADER_LEN) / NODE_SIZE) * NODE_SIZE + NODE_SIZE >
        raw.length) := by
      unfold eqNodeOff eqLastIdx eqHead eqCount eqCapacity at hb
      omega
    rw [if_neg hb']
    have hs : sliceBytes raw (HEADER_LEN +
        (readU32LE ((raw.drop 8).take 4) + readU32LE ((raw.drop 16).take 4) - 1) %
          ((raw.length - HEADER_LEN) / NODE_SIZE) * NODE_SIZE) NODE_SIZE =
        .ok (eqNode raw) := by
      have : HEADER_LEN +
          (readU32LE ((raw.drop 8).take 4) + readU32LE ((raw.drop 16).take 4) - 1) %
            ((raw.length - HEADER_LEN) / NODE_SIZE) * NODE_SIZE = eqNodeOff raw := rfl
      rw [this, sliceBytes_ok hb]
      rfl
    rw [hs]

theorem getD_take_one (l : List ℕ) : (l.take 1).getD 0 0 = l.getD 0 0 := by
  cases l <;> simp

theorem decodeNode_eq (node : List ℕ) (h : node.length = NODE_SIZE) :
    decodeNode node =
      if node.getD 0 0 % 2 = 0 then .ok none
      else if readU64LE ((node.drop 8).take 8) = 0 then .ok none
      else
        .ok (some
          ((readU64LE ((node.drop 16).take 8) : ℚ) /
              (readU64LE ((node.drop 8).take 8) : ℚ) / 1000000,
            (readU64LE ((node.drop 8).take 8) : ℚ) / 1000000,
            if node.getD 0 0 / 4 % 2 = 1 then "bid" else "ask")) := by
  have h0 : 0 + 1 ≤ node.length := by rw [h]; norm_num [NODE_SIZE]
  have h16 : 16 + 8 ≤ node.length := by rw [h]; norm_num [NODE_SIZE]
  have h8 : 8 + 8 ≤ node.length := by rw [h]; norm_num [NODE_SIZE]
  unfold decodeNode
  simp only [sliceBytes_ok h0, sliceBytes_ok h16, sliceBytes_ok h8, List.drop_zero,
    getD_take_one]

theorem decodeNode_ne_error (node : List ℕ) (h : node.length = NODE_SIZE) (e : Unit) :
    decodeNode node ≠ .error e := by
  rw [decodeNode_eq node h]
  by_cases h1 : node.getD 0 0 % 2 = 0
  · rw [if_pos h1]; simp
  · rw [if_neg h1]
    by_cases h2 : readU64LE ((node.drop 8).take 8) = 0
    · rw [if_pos h2]; simp
    · rw [if_neg h2]; simp

theorem decodeNode_size_pos (node : List ℕ) (h : node.length = NODE_SIZE)
    {pr sz : ℚ} {sd : String}
    (hsome : decodeNode node = .ok (some (pr, sz, sd))) : 0 < sz := by
  rw [decodeNode_eq node h] at hsome
  by_cases h1 : node.getD 0 0 % 2 = 0
  · rw [if_pos h1] at hsome
    exact absurd hsome (by simp)
  · rw [if_neg h1] at hsome
    by_cases h2 : readU64LE ((node.drop 8).take 8) = 0
    · rw [if_pos h2] at hsome
      exact absurd hsome (by simp)
    · rw [if_neg h2] at hsome
      simp only [Except.ok.injEq, Option.some.injEq, Prod.mk.injEq] at hsome
      rw [← hsome.2.1]
      have : (0 : ℚ) < (readU64LE ((node.drop 8).take 8) : ℚ) := by
        exact_mod_cast Nat.pos_of_ne_zero h2
      positivity

theorem decode_last_fill_ne_error (raw : List ℕ) (e : Unit) :
    decode_last_fill raw ≠ .error e := by
  by_cases hh : raw.length < HEADER_LEN
  · unfold decode_last_fill
    rw [if_pos hh]
    simp
  · push_neg at hh
    rw [decode_last_fill_eq raw hh]
    by_cases hc : eqCapacity raw = 0 ∨ eqCount raw = 0
    · rw [if_pos hc]; simp
    · rw [if_neg hc]
      exact decodeNode_ne_error _ (eqNode_length raw hh (fun hz => hc (Or.inl hz))) e

theorem decode_best_price_ne_error (raw : List ℕ) (e : Unit) :
    decode_best_price raw ≠ .error e := by
  unfold decode_best_price
  by_cases hh : raw.length < 8
  · rw [if_pos hh]; simp
  · push_neg at hh
    rw [if_neg (by omega : ¬ raw.length < 8)]
    simp only [sliceBytes_ok (by omega : 0 + 8 ≤ raw.length)]
    split <;> simp

/-! ### Claims about the decoder -/

/-- C1: for every event-queue buffer at least as long as the header,
`decode_last_fill` returns `None` when `count = 0`, the capacity is `0`,
or the fill flag bit (bit 0 of the record's first byte) is unset; any
emitted fill has `size > 0`, and a set fill flag with nonzero
quantity-received yields such a fill (zero-quantity-received records are
rejected). -/
theorem claim_C1 (raw : List ℕ) (h : HEADER_LEN ≤ raw.length) :
    (eqCount raw = 0 ∨ eqCapacity raw = 0 → decode_last_fill raw = .ok none) ∧
    (eqCount raw ≠ 0 → eqCapacity raw ≠ 0 → (eqNode raw).getD 0 0 % 2 = 0 →
      decode_last_fill raw = .ok none) ∧
    (∀ pr sz sd, decode_last_fill raw = .ok (some (pr, sz, sd)) → 0 < sz) ∧
    (eqCount raw ≠ 0 → eqCapacity raw ≠ 0 → (eqNode raw).getD 0 0 % 2 ≠ 0 →
      readU64LE (((eqNode raw).drop 8).take 8) ≠ 0 →
      ∃ pr sz sd, decode_last_fill raw = .ok (some (pr, sz, sd)) ∧ 0 < sz) := by
  rw [decode_last_fill_eq raw h]
  refine ⟨fun hc => ?_, fun h1 h2 h3 => ?_, fun pr sz sd hsome => ?_,
    fun h1 h2 h3 h4 => ?_⟩
  · rw [if_pos (by tauto)]
  · rw [if_neg (by tauto), decodeNode_eq _ (eqNode_length raw h h2), if_pos h3]
  · by_cases hc : eqCapacity raw = 0 ∨ eqCount raw = 0
    · rw [if_pos hc] at hsome
      exact absurd hsome (by simp)
    · rw [if_neg hc] at hsome
      exact decodeNode_size_pos _ (eqNode_length raw h (fun hz => hc (Or.inl hz))) hsome
  · rw [if_neg (by tauto), decodeNode_eq _ (eqNode_length raw h h2), if_neg h3,
      if_neg h4]
    refine ⟨_, _, _, rfl, ?_⟩
    have : (0 : ℚ) < (readU64LE (((eqNode raw).drop 8).take 8) : ℚ) := by
      exact_mod_cast Nat.pos_of_ne_zero h4
    positivity

/-- C1 witness: a concrete 117-byte buffer with one fill record yields a
fill of positive size. -/
theorem claim_C1_witness :
    HEADER_LEN ≤ fillBuf.length ∧
    ∃ pr sz sd, decode_last_fill fillBuf = .ok (some (pr, sz, sd)) ∧ 0 < sz :=
  ⟨by decide,
    (claim_C1 fillBuf (by decide)).2.2.2 (by decide) (by decide) (by decide) (by decide)⟩

/-- C2: for every buffer at least as long as the header,
`decode_last_fill` computes `capacity = (len - HEADER_LEN) / NODE_SIZE`,
rejects when the capacity or the `count` field is zero, and otherwise
decodes exactly the record at offset
`HEADER_LEN + ((head + count - 1) % capacity) * NODE_SIZE`, where `head`
and `count` are the little-endian 32-bit fields at offsets 8 and 16; had
that offset plus the record size exceeded the buffer it would also
reject. -/
theorem claim_C2 (raw : List ℕ) (h : HEADER_LEN ≤ raw.length) :
    (eqCapacity raw = 0 ∨ eqCount raw = 0 → decode_last_fill raw = .ok none) ∧
    (eqNodeOff raw + NODE_SIZE > raw.length → decode_last_fill raw = .ok none) ∧
    (eqCapacity raw ≠ 0 → eqCount raw ≠ 0 →
      decode_last_fill raw = decodeNode ((raw.drop (eqNodeOff raw)).take NODE_SIZE)) := by
  rw [decode_last_fill_eq raw h]
  refine ⟨fun hc => if_pos hc, fun hb => ?_, fun h1 h2 => ?_⟩
  · by_cases hc : eqCapacity raw = 0 ∨ eqCount raw = 0
    · exact if_pos hc
    · exact absurd (eqNodeOff_add_le raw h (fun hz => hc (Or.inl hz))) (by omega)
  · rw [if_neg (by tauto)]
    rfl

/-- C2 witness: the all-zero 117-byte buffer has `count = 0` and is
rejected. -/
theorem claim_C2_witness :
    HEADER_LEN ≤ zeroBuf.length ∧ decode_last_fill zeroBuf = .ok none :=
  ⟨by decide, (claim_C2 zeroBuf (by decide)).1 (by decide)⟩

/-- C3: buffers shorter than the respective header make both decoders
return `None`, and neither decoder ever performs an out-of-bounds byte
access (modelled as `.error ()`) on any input. -/
theorem claim_C3 (raw : List ℕ) :
    (raw.length < HEADER_LEN → decode_last_fill raw = .ok none) ∧
    (raw.length < 8 → decode_best_price raw = .ok none) ∧
    decode_last_fill raw ≠ .error () ∧
    decode_best_price raw ≠ .error () := by
  refine ⟨fun hh => ?_, fun hh => ?_, decode_last_fill_ne_error raw (),
    decode_best_price_ne_error raw ()⟩
  · unfold decode_last_fill
    rw [if_pos hh]
  · unfold decode_best_price
    rw [if_pos hh]

/-- C3 witness: the empty buffer is shorter than both headers and both
decoders return `None` on it. -/
theorem claim_C3_witness :
    ([] : List ℕ).length < HEADER_LEN ∧ decode_last_fill [] = .ok none ∧
    ([] : List ℕ).length < 8 ∧ decode_best_price [] = .ok none :=
  ⟨by decide, (claim_C3 []).1 (by decide), by decide, (claim_C3 []).2.1 (by decide)⟩

/-! ### Model lemmas -/

theorem deserQs_serQ (ps : List ℚ) : deserQs ps.length (ps.flatMap serQ) = some ps := by
  induction ps with
  | nil => rfl
  | cons q rest ih =>
    have hfm : (q :: rest).flatMap serQ = q.num :: (q.den : ℤ) :: rest.flatMap serQ := rfl
    rw [List.length_cons, hfm]
    show (deserQs rest.length (rest.flatMap serQ)).map
      (fun qs => mkRat q.num (q.den : ℤ).toNat :: qs) = some (q :: rest)
    rw [ih, Option.map_some', Int.toNat_natCast, Rat.mkRat_self]

theorem deserParams_serParams (ps : List ℚ) : deserParams (serParams ps) = some ps := by
  show (if (ps.length : ℤ) < 0 then none
    else deserQs (ps.length : ℤ).toNat (ps.flatMap serQ)) = some ps
  rw [if_neg (by omega : ¬ (ps.length : ℤ) < 0), Int.toNat_natCast]
  exact deserQs_serQ ps

theorem load_save (m : MlModel) (path : String) (fs : FileSys) :
    MlModel.load path (m.save path fs) = .ok m := by
  unfold MlModel.load MlModel.save
  simp [deserParams_serParams]

theorem predict_zero_model : (MlModel.mk [0, 0, 0]).predict [0, 0, 0] = 1 / 2 := by
  unfold MlModel.predict
  norm_num [Real.exp_zero]

/-! ### Claims about the model -/

/-- C6 counterexample: the missing-file fallback model has parameter
vector `[0,0,0]`, whose length is 3 — neither 0 nor `feature_count + 1 = 4`,
contradicting the claim for a model produced by `MlModel::load`. -/
theorem claim_C6_counterexample :
    MlModel.load "model.bin" emptyFs = .ok ⟨[0, 0, 0]⟩ ∧
    ¬((MlModel.mk [0, 0, 0]).params.length = 0 ∨
      (MlModel.mk [0, 0, 0]).params.length = 3 + 1) :=
  ⟨rfl, by decide⟩

/-- C6 (amended): the missing-file fallback produces the parameter vector
`[0,0,0]`, of length exactly 3 (the feature count) — not 0 and not
`feature_count + 1`; loading an existing well-formed file reproduces
exactly the stored parameter vector. -/
theorem claim_C6 (path : String) (fs : FileSys) :
    (fs path = .notFound →
      ∃ m, MlModel.load path fs = .ok m ∧ m.params = [0, 0, 0] ∧
        m.params.length = 3) ∧
    (∀ bytes ps, fs path = .found bytes → deserParams bytes = some ps →
      MlModel.load path fs = .ok ⟨ps⟩) := by
  constructor
  · intro h
    refine ⟨⟨[0, 0, 0]⟩, ?_, rfl, rfl⟩
    unfold MlModel.load
    rw [h]
  · intro bytes ps hb hps
    unfold MlModel.load
    rw [hb]
    show (match deserParams bytes with
      | some qs => (Except.ok (MlModel.mk qs) : Except ModelErr MlModel)
      | none => Except.error ModelErr.badBlob) = Except.ok (MlModel.mk ps)
    rw [hps]

/-- C6 witness: the amended claim at the all-`NotFound` file system. -/
theorem claim_C6_witness :
    emptyFs "m.bin" = .notFound ∧
    ∃ m, MlModel.load "m.bin" emptyFs = .ok m ∧ m.params = [0, 0, 0] ∧
      m.params.length = 3 :=
  ⟨rfl, (claim_C6 "m.bin" emptyFs).1 rfl⟩

/-- C7: loading from a path whose read reports `NotFound` succeeds with
the degenerate model `[0,0,0]`, whose `predict` on the all-zero feature
vector is exactly `0.5`; a read failure other than `NotFound` is the read
outcome that makes `load` propagate an error. -/
theorem claim_C7 (path : String) (fs : FileSys) :
    (fs path = .notFound →
      MlModel.load path fs = .ok ⟨[0, 0, 0]⟩ ∧
      (MlModel.mk [0, 0, 0]).predict [0, 0, 0] = 1 / 2) ∧
    (fs path = .ioError → MlModel.load path fs = .error .io) := by
  constructor
  · intro h
    refine ⟨?_, predict_zero_model⟩
    unfold MlModel.load
    rw [h]
  · intro h
    unfold MlModel.load
    rw [h]

/-- C7 witness: the claim at a concrete path on the all-`NotFound` file
system. -/
theorem claim_C7_witness :
    emptyFs "model.bin" = .notFound ∧
    MlModel.load "model.bin" emptyFs = .ok ⟨[0, 0, 0]⟩ ∧
    (MlModel.mk [0, 0, 0]).predict [0, 0, 0] = 1 / 2 :=
  ⟨rfl, ((claim_C7 "model.bin" emptyFs).1 rfl).1, ((claim_C7 "model.bin" emptyFs).1 rfl).2⟩

/-- C8: saving a model and loading it back from the same path yields a
model whose `predict` output agrees with the original on every fixed
feature vector. -/
theorem claim_C8 (m : MlModel) (path : String) (fs : FileSys) (features : List ℚ) :
    ∃ m', MlModel.load path (m.save path fs) = .ok m' ∧
      m'.predict features = m.predict features :=
  ⟨m, load_save m path fs, rfl⟩

/-! ### Strategy lemmas -/

theorem signal055_spec (prob : ℝ) :
    (signalOfProb 0.55 prob = some .Buy ↔ (0.55 : ℝ) < prob) ∧
    (signalOfProb 0.55 prob = some .Sell ↔ prob < 1 - (0.55 : ℝ)) ∧
    (signalOfProb 0.55 prob = none ↔
      (1 - (0.55 : ℝ) ≤ prob ∧ prob ≤ (0.55 : ℝ))) := by
  have hc : ((0.55 : ℚ) : ℝ) = (0.55 : ℝ) := by norm_num
  unfold signalOfProb
  rw [hc]
  by_cases h1 : (0.55 : ℝ) < prob
  · rw [if_pos h1]
    exact ⟨iff_of_true rfl h1,
      iff_of_false (by simp) (by intro h; linarith),
      iff_of_false (by simp) (by rintro ⟨-, hb⟩; linarith)⟩
  · rw [if_neg h1]
    by_cases h2 : prob < 1 - (0.55 : ℝ)
    · rw [if_pos h2]
      exact ⟨iff_of_false (by simp) h1,
        iff_of_true rfl h2,
        iff_of_false (by simp) (by rintro ⟨ha, -⟩; linarith)⟩
    · rw [if_neg h2]
      exact ⟨iff_of_false (by simp) h1,
        iff_of_false (by simp) h2,
        iff_of_true rfl ⟨by linarith [not_lt.mp h2], not_lt.mp h1⟩⟩

/-- C9: with the threshold fixed at 0.55, `generate_signal` returns `Buy`
exactly when the predicted probability strictly exceeds 0.55, `Sell`
exactly when it is strictly below `1 - 0.55`, and `None` otherwise; the
probability-to-signal rule maps 0.55 and 0.45 to `None`, 0.56 to `Buy`
and 0.44 to `Sell`. -/
theorem claim_C9 :
    (∀ (m : MlModel) (features : List ℚ),
      (Strategy.generate_signal ⟨m, 0.55⟩ features = some .Buy ↔
        (0.55 : ℝ) < m.predict features) ∧
      (Strategy.generate_signal ⟨m, 0.55⟩ features = some .Sell ↔
        m.predict features < 1 - (0.55 : ℝ)) ∧
      (Strategy.generate_signal ⟨m, 0.55⟩ features = none ↔
        (1 - (0.55 : ℝ) ≤ m.predict features ∧ m.predict features ≤ (0.55 : ℝ)))) ∧
    signalOfProb 0.55 (0.55 : ℝ) = none ∧
    signalOfProb 0.55 (0.45 : ℝ) = none ∧
    signalOfProb 0.55 (0.56 : ℝ) = some .Buy ∧
    signalOfProb 0.55 (0.44 : ℝ) = some .Sell := by
  refine ⟨fun m features => signal055_spec (m.predict features), ?_, ?_, ?_, ?_⟩
  · unfold signalOfProb
    rw [if_neg (by norm_num), if_neg (by norm_num)]
  · unfold signalOfProb
    rw [if_neg (by norm_num), if_neg (by norm_num)]
  · unfold signalOfProb
    rw [if_pos (by norm_num)]
  · unfold signalOfProb
    rw [if_neg (by norm_num), if_pos (by norm_num)]

/-! ### Trader lemmas -/

theorem pushObs_spec (msg : TradeMsg) (st : TraderState) :
    (pushObs msg st).dataset = st.dataset ++ obsOf st msg ∧
    (pushObs msg st).lastFeatures = st.lastFeatures ∧
    (pushObs msg st).lastPrice = st.lastPrice ∧
    (pushObs msg st).paperMode = st.paperMode ∧
    (pushObs msg st).lastTrained = st.lastTrained ∧
    (pushObs msg st).strategy = st.strategy ∧
    (pushObs msg st).modelFs = st.modelFs := by
  unfold pushObs obsOf
  cases hlf : st.lastFeatures <;> cases hlp : st.lastPrice <;> simp [hlf, hlp]

theorem updateLast_spec (msg : TradeMsg) (st : TraderState) :
    (updateLast msg st).dataset = st.dataset ∧
    (updateLast msg st).lastFeatures = some [msg.price, msg.size, msg.spread] ∧
    (updateLast msg st).lastPrice = some msg.price ∧
    (updateLast msg st).paperMode = st.paperMode ∧
    (updateLast msg st).lastTrained = st.lastTrained ∧
    (updateLast msg st).strategy = st.strategy ∧
    (updateLast msg st).modelFs = st.modelFs :=
  ⟨rfl, rfl, rfl, rfl, rfl, rfl, rfl⟩

theorem trainModel_fields (f : List ℚ → List ℤ → Except Unit (List ℚ))
    (st : TraderState) :
    (trainModel f st).1.dataset = st.dataset ∧
    (trainModel f st).1.lastFeatures = st.lastFeatures ∧
    (trainModel f st).1.lastPrice = st.lastPrice ∧
    (trainModel f st).1.paperMode = st.paperMode := by
  simp only [trainModel]
  split
  · exact ⟨rfl, rfl, rfl, rfl⟩
  · split
    · split <;> exact ⟨rfl, rfl, rfl, rfl⟩
    · exact ⟨rfl, rfl, rfl, rfl⟩

theorem trainModel_lt10 (f : List ℚ → List ℤ → Except Unit (List ℚ))
    (st : TraderState) (h : st.dataset.length < 10) : trainModel f st = (st, true) := by
  simp only [trainModel]
  rw [if_pos h]

theorem trainModel_lastTrained (f : List ℚ → List ℤ → Except Unit (List ℚ))
    (st : TraderState) :
    (trainModel f st).1.lastTrained = st.lastTrained ∨
    (trainModel f st).1.lastTrained = st.dataset.length := by
  simp only [trainModel]
  split
  · exact Or.inl rfl
  · split
    · split
      · exact Or.inr rfl
      · exact Or.inl rfl
    · exact Or.inl rfl

theorem trainModel_success (f : List ℚ → List ℤ → Except Unit (List ℚ))
    (st : TraderState) (h10 : 10 ≤ st.dataset.length)
    (hok : (trainModel f st).2 = true) :
    (trainModel f st).1.lastTrained = st.dataset.length := by
  by_cases hlt : st.dataset.length < 10
  · exact absurd h10 (by omega)
  · by_cases hshape : (st.dataset.flatMap Prod.fst).length = st.dataset.length * 3
    · rcases hf : f (st.dataset.flatMap Prod.fst)
          (st.dataset.map fun ob => if (1 : ℚ) / 2 < ob.2 then (1 : ℤ) else 0)
        with e | params
      · exfalso
        have ht : trainModel f st = (st, false) := by
          simp only [trainModel]
          rw [if_neg hlt, if_pos hshape, hf]
        rw [ht] at hok
        simp at hok
      · simp only [trainModel]
        rw [if_neg hlt, if_pos hshape, hf]
    · exfalso
      have ht : trainModel f st = (st, false) := by
        simp only [trainModel]
        rw [if_neg hlt, if_neg hshape]
      rw [ht] at hok
      simp at hok

theorem maybeTrain_fields (f : List ℚ → List ℤ → Except Unit (List ℚ))
    (st2 : TraderState) :
    (maybeTrain f st2).1.dataset = st2.dataset ∧
    (maybeTrain f st2).1.lastFeatures = st2.lastFeatures ∧
    (maybeTrain f st2).1.lastPrice = st2.lastPrice ∧
    (maybeTrain f st2).1.paperMode = st2.paperMode := by
  unfold maybeTrain
  split
  · exact trainModel_fields f st2
  · exact ⟨rfl, rfl, rfl, rfl⟩

theorem maybeTrain_skip (f : List ℚ → List ℤ → Except Unit (List ℚ))
    (st2 : TraderState)
    (h : ¬(st2.paperMode = true ∧ 500 ≤ st2.dataset.length - st2.lastTrained)) :
    maybeTrain f st2 = (st2, true) := by
  unfold maybeTrain
  rw [if_neg h]

theorem maybeTrain_lastTrained (f : List ℚ → List ℤ → Except Unit (List ℚ))
    (st2 : TraderState) :
    (maybeTrain f st2).1.lastTrained = st2.lastTrained ∨
    (maybeTrain f st2).1.lastTrained = st2.dataset.length := by
  unfold maybeTrain
  split
  · exact trainModel_lastTrained f st2
  · exact Or.inl rfl

theorem handleTrade_pnl_only (f : List ℚ → List ℤ → Except Unit (List ℚ))
    (e : Bool) (msg : TradeMsg) (st : TraderState) :
    ∃ q : ℚ, (handleTrade f e msg st).1 =
      { (maybeTrain f (updateLast msg (pushObs msg st))).1 with pnl := q } := by
  unfold handleTrade
  dsimp only
  split
  · exact ⟨_, rfl⟩
  · unfold signalStep
    split
    · split
      · split
        · exact ⟨_, rfl⟩
        · exact ⟨_, rfl⟩
      · exact ⟨_, rfl⟩
    · exact ⟨_, rfl⟩

theorem handleTrade_dataset (f : List ℚ → List ℤ → Except Unit (List ℚ))
    (e : Bool) (msg : TradeMsg) (st : TraderState) :
    (handleTrade f e msg st).1.dataset = st.dataset ++ obsOf st msg := by
  obtain ⟨q, hq⟩ := handleTrade_pnl_only f e msg st
  rw [hq]
  show (maybeTrain f (updateLast msg (pushObs msg st))).1.dataset = _
  rw [(maybeTrain_fields f _).1, (updateLast_spec msg _).1, (pushObs_spec msg st).1]

theorem handleTrade_lastFeatures (f : List ℚ → List ℤ → Except Unit (List ℚ))
    (e : Bool) (msg : TradeMsg) (st : TraderState) :
    (handleTrade f e msg st).1.lastFeatures = some [msg.price, msg.size, msg.spread] := by
  obtain ⟨q, hq⟩ := handleTrade_pnl_only f e msg st
  rw [hq]
  show (maybeTrain f (updateLast msg (pushObs msg st))).1.lastFeatures = _
  rw [(maybeTrain_fields f _).2.1, (updateLast_spec msg _).2.1]

theorem handleTrade_lastPrice (f : List ℚ → List ℤ → Except Unit (List ℚ))
    (e : Bool) (msg : TradeMsg) (st : TraderState) :
    (handleTrade f e msg st).1.lastPrice = some msg.price := by
  obtain ⟨q, hq⟩ := handleTrade_pnl_only f e msg st
  rw [hq]
  show (maybeTrain f (updateLast msg (pushObs msg st))).1.lastPrice = _
  rw [(maybeTrain_fields f _).2.2.1, (updateLast_spec msg _).2.2.1]

theorem handleTrade_paperMode (f : List ℚ → List ℤ → Except Unit (List ℚ))
    (e : Bool) (msg : TradeMsg) (st : TraderState) :
    (handleTrade f e msg st).1.paperMode = st.paperMode := by
  obtain ⟨q, hq⟩ := handleTrade_pnl_only f e msg st
  rw [hq]
  show (maybeTrain f (updateLast msg (pushObs msg st))).1.paperMode = _
  rw [(maybeTrain_fields f _).2.2.2, (updateLast_spec msg _).2.2.2.1,
    (pushObs_spec msg st).2.2.2.1]

theorem handleTrade_lastTrained (f : List ℚ → List ℤ → Except Unit (List ℚ))
    (e : Bool) (msg : TradeMsg) (st : TraderState) :
    (handleTrade f e msg st).1.lastTrained = st.lastTrained ∨
    (handleTrade f e msg st).1.lastTrained = (st.dataset ++ obsOf st msg).length := by
  obtain ⟨q, hq⟩ := handleTrade_pnl_only f e msg st
  rw [hq]
  have hgoal : ({ (maybeTrain f (updateLast msg (pushObs msg st))).1 with pnl := q
      } : TraderState).lastTrained =
      (maybeTrain f (updateLast msg (pushObs msg st))).1.lastTrained := rfl
  rw [hgoal]
  rcases maybeTrain_lastTrained f (updateLast msg (pushObs msg st)) with h1 | h2
  · rw [h1, (updateLast_spec msg _).2.2.2.2.1, (pushObs_spec msg st).2.2.2.2.1]
    exact Or.inl rfl
  · rw [h2, (updateLast_spec msg _).1, (pushObs_spec msg st).1]
    exact Or.inr rfl

theorem handleTrade_noTrain (f : List ℚ → List ℤ → Except Unit (List ℚ))
    (e : Bool) (msg : TradeMsg) (st : TraderState)
    (h : ¬(st.paperMode = true ∧
      500 ≤ (st.dataset ++ obsOf st msg).length - st.lastTrained)) :
    (handleTrade f e msg st).1.strategy = st.strategy ∧
    (handleTrade f e msg st).1.lastTrained = st.lastTrained ∧
    (handleTrade f e msg st).1.modelFs = st.modelFs := by
  obtain ⟨q, hq⟩ := handleTrade_pnl_only f e msg st
  have hskip : maybeTrain f (updateLast msg (pushObs msg st)) =
      (updateLast msg (pushObs msg st), true) := by
    apply maybeTrain_skip
    rw [(updateLast_spec msg _).2.2.2.1, (pushObs_spec msg st).2.2.2.1,
      (updateLast_spec msg _).1, (pushObs_spec msg st).1,
      (updateLast_spec msg _).2.2.2.2.1, (pushObs_spec msg st).2.2.2.2.1]
    exact h
  rw [hq, hskip]
  refine ⟨?_, ?_, ?_⟩
  · show (updateLast msg (pushObs msg st)).strategy = st.strategy
    rw [(updateLast_spec msg _).2.2.2.2.2.1, (pushObs_spec msg st).2.2.2.2.2.1]
  · show (updateLast msg (pushObs msg st)).lastTrained = st.lastTrained
    rw [(updateLast_spec msg _).2.2.2.2.1, (pushObs_spec msg st).2.2.2.2.1]
  · show (updateLast msg (pushObs msg st)).modelFs = st.modelFs
    rw [(updateLast_spec msg _).2.2.2.2.2.2, (pushObs_spec msg st).2.2.2.2.2.2]

/-! ### Claims about the trading loop -/

/-- C4: `handle_trade` appends an observation exactly when both a
previous feature vector and a previous price exist, pairing the previous
features with label 1 when the current price strictly exceeds the
previous price and 0 otherwise; processing prices `[10, 12, 9]` from the
startup state yields exactly two observations with labels `[1, 0]`. -/
theorem claim_C4 :
    (∀ f e msg (st : TraderState) prevFeat prevPrice,
      st.lastFeatures = some prevFeat → st.lastPrice = some prevPrice →
      (handleTrade f e msg st).1.dataset =
        st.dataset ++ [(prevFeat, if prevPrice < msg.price then (1 : ℚ) else 0)]) ∧
    (∀ f e msg (st : TraderState),
      st.lastFeatures = none ∨ st.lastPrice = none →
      (handleTrade f e msg st).1.dataset = st.dataset) ∧
    ((handleTrade failFit false (msgAt 9)
        (handleTrade failFit false (msgAt 12)
          (handleTrade failFit false (msgAt 10) paperInit).1).1).1.dataset.map
        Prod.snd = [1, 0]) := by
  refine ⟨?_, ?_, ?_⟩
  · intro f e msg st pf pp hf hp
    rw [handleTrade_dataset]
    unfold obsOf labelOf
    rw [hf, hp]
  · intro f e msg st h
    rw [handleTrade_dataset]
    rcases h with hf | hp
    · unfold obsOf
      rw [hf]
      simp
    · unfold obsOf
      cases hlf : st.lastFeatures <;> rw [hp] <;> simp
  · have e1d : (handleTrade failFit false (msgAt 10) paperInit).1.dataset = [] := by
      rw [handleTrade_dataset]
      rfl
    have e1f : (handleTrade failFit false (msgAt 10) paperInit).1.lastFeatures =
        some [10, 1, 0] :=
      handleTrade_lastFeatures failFit false (msgAt 10) paperInit
    have e1p : (handleTrade failFit false (msgAt 10) paperInit).1.lastPrice =
        some 10 :=
      handleTrade_lastPrice failFit false (msgAt 10) paperInit
    have o2 : obsOf (handleTrade failFit false (msgAt 10) paperInit).1 (msgAt 12) =
        [([10, 1, 0], 1)] := by
      unfold obsOf
      rw [e1f, e1p]
      norm_num [labelOf, msgAt]
    have e2d : (handleTrade failFit false (msgAt 12)
        (handleTrade failFit false (msgAt 10) paperInit).1).1.dataset =
        [([10, 1, 0], 1)] := by
      rw [handleTrade_dataset, e1d, o2, List.nil_append]
    have e2f : (handleTrade failFit false (msgAt 12)
        (handleTrade failFit false (msgAt 10) paperInit).1).1.lastFeatures =
        some [12, 1, 0] :=
      handleTrade_lastFeatures failFit false (msgAt 12) _
    have e2p : (handleTrade failFit false (msgAt 12)
        (handleTrade failFit false (msgAt 10) paperInit).1).1.lastPrice =
        some 12 :=
      handleTrade_lastPrice failFit false (msgAt 12) _
    have o3 : obsOf (handleTrade failFit false (msgAt 12)
        (handleTrade failFit false (msgAt 10) paperInit).1).1 (msgAt 9) =
        [([12, 1, 0], 0)] := by
      unfold obsOf
      rw [e2f, e2p]
      norm_num [labelOf, msgAt]
    rw [handleTrade_dataset, e2d, o3]
    rfl

/-- C4 witness: the labelled-append clause of C4 at a concrete state that
has previous features and a previous price. -/
theorem claim_C4_witness :
    (updateLast (msgAt 10) paperInit).lastFeatures = some [10, 1, 0] ∧
    (updateLast (msgAt 10) paperInit).lastPrice = some 10 ∧
    (handleTrade failFit false (msgAt 12)
      (updateLast (msgAt 10) paperInit)).1.dataset =
      (updateLast (msgAt 10) paperInit).dataset ++
        [([10, 1, 0], if (10 : ℚ) < (msgAt 12).price then (1 : ℚ) else 0)] :=
  ⟨rfl, rfl,
    claim_C4.1 failFit false (msgAt 12) (updateLast (msgAt 10) paperInit)
      [10, 1, 0] 10 rfl rfl⟩

/-- C5: retraining never happens in live mode; in paper mode the model,
checkpoint and saved model file are unchanged unless the dataset grew by
at least 500 entries since the checkpoint; `train_model` skips (leaving
the state unchanged) when the snapshot holds fewer than 10 samples, and
any successful run sets the checkpoint to the snapshot length. -/
theorem claim_C5 (f : List ℚ → List ℤ → Except Unit (List ℚ)) (e : Bool)
    (msg : TradeMsg) (st : TraderState) :
    (st.paperMode = false →
      (handleTrade f e msg st).1.strategy = st.strategy ∧
      (handleTrade f e msg st).1.lastTrained = st.lastTrained ∧
      (handleTrade f e msg st).1.modelFs = st.modelFs) ∧
    (st.paperMode = true →
      (st.dataset ++ obsOf st msg).length - st.lastTrained < 500 →
      (handleTrade f e msg st).1.strategy = st.strategy ∧
      (handleTrade f e msg st).1.lastTrained = st.lastTrained ∧
      (handleTrade f e msg st).1.modelFs = st.modelFs) ∧
    (st.dataset.length < 10 → trainModel f st = (st, true)) ∧
    (10 ≤ st.dataset.length → (trainModel f st).2 = true →
      (trainModel f st).1.lastTrained = st.dataset.length) := by
  refine ⟨fun hlive => ?_, fun hpaper hlt => ?_, trainModel_lt10 f st,
    trainModel_success f st⟩
  · exact handleTrade_noTrain f e msg st (by rw [hlive]; rintro ⟨hcontra, -⟩; cases hcontra)
  · exact handleTrade_noTrain f e msg st (by rintro ⟨-, hge⟩; omega)

/-- C5 witness: the live-mode clause at the concrete live startup state. -/
theorem claim_C5_witness :
    liveInit.paperMode = false ∧
    (handleTrade failFit false (msgAt 10) liveInit).1.strategy = liveInit.strategy ∧
    (handleTrade failFit false (msgAt 10) liveInit).1.lastTrained = liveInit.lastTrained ∧
    (handleTrade failFit false (msgAt 10) liveInit).1.modelFs = liveInit.modelFs :=
  ⟨rfl, (claim_C5 failFit false (msgAt 10) liveInit).1 rfl⟩

/-- C10: in every reachable trader state the retrain checkpoint is at
most the dataset length, so the unsigned subtraction
`dataset.len() - last_trained` in the retrain gate never underflows. -/
theorem claim_C10 (st : TraderState) (h : Reachable st) :
    st.lastTrained ≤ st.dataset.length := by
  induction h with
  | init st h0 => simp [h0.2.2.2.2, h0.2.1]
  | step st f e msg hr ih =>
    have hd := handleTrade_dataset f e msg st
    rcases handleTrade_lastTrained f e msg st with h1 | h2
    · rw [h1, hd, List.length_append]
      omega
    · exact le_of_eq (by rw [h2, hd])

/-- C10 witness: the invariant at the concrete reachable startup state. -/
theorem claim_C10_witness :
    Reachable paperInit ∧ paperInit.lastTrained ≤ paperInit.dataset.length :=
  ⟨Reachable.init paperInit ⟨rfl, rfl, rfl, rfl, rfl⟩,
    claim_C10 paperInit (Reachable.init paperInit ⟨rfl, rfl, rfl, rfl, rfl⟩)⟩

end BotSolana
